import Mathlib

set_option maxRecDepth 8000

/-!
# Verification of the transformation core of zds_to_grav.py

This file embeds the two text-transform components of the converter —
`shift_markdown_headers` (header demotion by compiled-regex substitution)
and `download_and_replace_markdown_images` (image discovery, download,
content-hash dedup and reference rewriting) — and proves or refutes the
frozen specification claims about them.

Conventions of the embedding:
* text is a `List Char`, with `String` wrappers at the interface;
* Python's `re.sub` is a left-to-right scan that retries the pattern at
  every position and resumes after the end of each match, modelled by a
  fuelled scanner (fuel = text length bounds the scan);
* `sha256` is modelled as the byte content itself (a collision-free
  digest identifies exactly the byte-identical payloads);
* `requests.get` is a parameter `fetch : String → Except Unit (Bool × List Nat)`
  whose error is a raised network exception and whose value is the
  response's `ok` flag and body bytes;
* the third-party `UniqueSlugify` is split into an abstract base
  slugifier parameter and an explicit uniquification state.
-/

/-! ## Literal matching helpers -/

/-- Drop the literal character list `p` from the front of `s`; `none` when
`s` does not start with `p`.  Mirrors matching a literal regex fragment. -/
def dropLit : List Char → List Char → Option (List Char)
  | [], s => some s
  | _ :: _, [] => none
  | c :: p, d :: s => if d = c then dropLit p s else none

/-- `n` hash characters, the ATX marker of a level-`n` header. -/
def hashes (n : Nat) : List Char := List.replicate n '#'

/-! ## The header patterns

The source compiles, for n = 5..1,
`re_title_n = (\A|\r?\n)#…# (.+)(\r?\n|\Z)` (n hashes), and
`re_title_2_long = (\A|\r?\n)(.+)\r?\n-{2,}(\r?\n|\Z)`,
`re_title_1_long = (\A|\r?\n)(.+)\r?\n(={2,})(\r?\n|\Z)`.
Each `core` below is the part of the pattern after the left boundary
`(\A|\r?\n)`; it returns the replacement text that the substitution
writes after the preserved boundary (`\1`), together with the rest of
the input after the match.  Since `.` matches every character except
`'\n'`, the greedy `(.+)` is `takeWhile (· != '\n')`, and the greedy
repetitions leave no backtracking choice. -/

/-- Core of `re_title_n` after the boundary, with the replacement
`#…## \2\3` of one more hash. -/
def coreAtx (n : Nat) (s : List Char) : Option (List Char × List Char) :=
  match dropLit (hashes n ++ [' ']) s with
  | none => none
  | some t =>
    let g2 := t.takeWhile (· != '\n')
    if g2 = [] then none
    else
      match t.dropWhile (· != '\n') with
      | [] => some (hashes (n + 1) ++ ' ' :: g2, [])
      | d :: rest =>
        if d = '\n' then some (hashes (n + 1) ++ ' ' :: (g2 ++ ['\n']), rest)
        else none

/-- Core of `re_title_2_long` after the boundary, with the replacement
`### \2\3` (the dash underline is dropped). -/
def coreSe2 (s : List Char) : Option (List Char × List Char) :=
  let g2 := s.takeWhile (· != '\n')
  if g2 = [] then none
  else
    match s.dropWhile (· != '\n') with
    | [] => none
    | nl :: t =>
      if nl ≠ '\n' then none else
      let ds := t.takeWhile (· == '-')
      if ds.length < 2 then none
      else
        match t.dropWhile (· == '-') with
        | [] => some ('#' :: '#' :: '#' :: ' ' :: g2, [])
        | d :: rest =>
          if d = '\n' then some ('#' :: '#' :: '#' :: ' ' :: (g2 ++ ['\n']), rest)
          else if d = '\r' then
            match rest with
            | [] => none
            | e :: rest₂ =>
              if e = '\n' then
                some ('#' :: '#' :: '#' :: (' ' :: (g2 ++ ['\r', '\n'])), rest₂)
              else none
          else none

/-- Core of `re_title_1_long` after the boundary, with the replacement of
`repl_title_1_long`: group 2, a `'\n'`, a dash underline of exactly the
length of the `=` underline, then group 4. -/
def coreSe1 (s : List Char) : Option (List Char × List Char) :=
  let g2 := s.takeWhile (· != '\n')
  if g2 = [] then none
  else
    match s.dropWhile (· != '\n') with
    | [] => none
    | nl :: t =>
      if nl ≠ '\n' then none else
      let es := t.takeWhile (· == '=')
      if es.length < 2 then none
      else
        match t.dropWhile (· == '=') with
        | [] => some (g2 ++ '\n' :: List.replicate es.length '-', [])
        | d :: rest =>
          if d = '\n' then
            some (g2 ++ '\n' :: (List.replicate es.length '-' ++ ['\n']), rest)
          else if d = '\r' then
            match rest with
            | [] => none
            | e :: rest₂ =>
              if e = '\n' then
                some (g2 ++ '\n' :: (List.replicate es.length '-' ++ ['\r', '\n']), rest₂)
              else none
          else none

/-- One substitution pass of a boundary-anchored pattern
`(\A|\r?\n)…`: scan left to right; at the very start try the `\A`
alternative, at every position try the `\r?\n` alternative; after a
match, resume after its end (the consumed trailing newline included).
Fuel bounds the scan; the text's length is always enough. -/
def boundSub (core : List Char → Option (List Char × List Char)) :
    Nat → Bool → List Char → List Char
  | 0, _, s => s
  | f + 1, first, s =>
    match (if first then core s else none) with
    | some pr => pr.1 ++ boundSub core f false pr.2
    | none =>
      match s with
      | [] => []
      | c :: t =>
        if c = '\n' then
          match core t with
          | some pr => '\n' :: (pr.1 ++ boundSub core f false pr.2)
          | none => '\n' :: boundSub core f false t
        else if c = '\r' then
          match t with
          | [] => c :: boundSub core f false t
          | d :: t₂ =>
            if d = '\n' then
              match core t₂ with
              | some pr => '\r' :: '\n' :: (pr.1 ++ boundSub core f false pr.2)
              | none => '\r' :: boundSub core f false (d :: t₂)
            else c :: boundSub core f false t
        else c :: boundSub core f false t

/-- A whole substitution pass over `s`, as `pattern.sub` runs it. -/
def runPass (core : List Char → Option (List Char × List Char))
    (s : List Char) : List Char :=
  boundSub core s.length true s

/-- The scan from a position strictly after the start (`\A` can no
longer match). -/
def scanF (core : List Char → Option (List Char × List Char))
    (s : List Char) : List Char :=
  boundSub core s.length false s

/-- `shift_markdown_headers` on characters: the seven substitution
passes in source order — ATX levels 5, 4, 3, 2, 1, then Setext level 2,
then Setext level 1. -/
def shiftChars (s : List Char) : List Char :=
  runPass coreSe1 (runPass coreSe2 (runPass (coreAtx 1) (runPass (coreAtx 2)
    (runPass (coreAtx 3) (runPass (coreAtx 4) (runPass (coreAtx 5) s))))))

/-- `shift_markdown_headers`: shifts every Markdown header one level
deeper. -/
def shift_markdown_headers (s : String) : String :=
  String.mk (shiftChars s.data)

/-! ## The image localiser

`download_and_replace_markdown_images(markdown_source, to)` substitutes
`re_image = !\[([^\]]+)\]\(([^\)]+)\)` through `repl_and_download_image`,
passing `re.MULTILINE` — whose numeric value is 8 — as the **count**
argument of `Pattern.sub`, so at most eight references per fragment are
substituted.  The destination directory is abstracted away: a file write
is recorded as a `(filename, bytes)` pair. -/

/-- The errors the image pipeline can raise: `click.echos` does not
exist (an `AttributeError`), and `requests.get` raises on a network
failure.  Either exception propagates out of `Pattern.sub` and aborts
the conversion (the top-level handler prints and re-raises). -/
inductive PyError where
  | attributeError
  | requestsException
deriving DecidableEq

/-- The state one conversion run threads through the localiser: the
module-global `downloaded_images` hash→filename registry, the files
written so far, the warnings printed via `click.secho(err=True)`, and
the slugs the current call's `UniqueSlugify` object has produced. -/
structure ConvState where
  downloaded_images : List (List Nat × String)
  files : List (String × List Nat)
  warnings : Nat
  used_slugs : List String
deriving DecidableEq

/-- The state at the start of a conversion run. -/
def initState : ConvState := ⟨[], [], 0, []⟩

/-- Dictionary lookup in the `downloaded_images` registry, keyed by the
content digest (modelled as the bytes themselves). -/
def lookupBytes (k : List Nat) : List (List Nat × String) → Option String
  | [] => none
  | (k', v) :: r => if k = k' then some v else lookupBytes k r

/-- Modelled from the spec: the third-party `UniqueSlugify` appends a
disambiguating numeric suffix `-1`, `-2`, …, deterministically in order
of first encounter, when the base slug was already produced by this
slugifier object.  The fuel `used.length + 1` always suffices to find a
fresh candidate. -/
def uniqGo (base : String) : Nat → Nat → List String → String
  | 0, k, _ => base ++ "-" ++ toString k
  | fuel + 1, k, used =>
    if (base ++ "-" ++ toString k) ∈ used then uniqGo base fuel (k + 1) used
    else base ++ "-" ++ toString k

/-- The slug assigned for `base` given the slugs already produced. -/
def uniqSlug (used : List String) (base : String) : String :=
  if base ∈ used then uniqGo base (used.length + 1) 1 used else base

/-- `image_url.split(".")[-1]`: the suffix of the string after its last
dot — the whole string when it has no dot. -/
def afterLastDot (s : List Char) : List Char :=
  (s.reverse.takeWhile (· != '.')).reverse

/-- `image_ext = "." + image_url.split(".")[-1]`, computed from the
resolved URL. -/
def image_ext_of (url : List Char) : List Char := '.' :: afterLastDot url

/-- An image reference `![alt](fn)` as written into the output text. -/
def mkRef (alt fn : List Char) : List Char :=
  '!' :: '[' :: (alt ++ ']' :: '(' :: (fn ++ [')']))

/-- The match of `re_image = !\[([^\]]+)\]\(([^\)]+)\)` at the current
position: a bang and bracket, a nonempty run of non-`]` characters, the
literal `](`, a nonempty run of non-`)` characters, and the closing
parenthesis.  Both character classes exclude their closing delimiter,
so the greedy runs leave no backtracking choice. -/
def matchImage (s0 : List Char) : Option (List Char × List Char × List Char) :=
  match s0 with
  | bang :: bracket :: s =>
    if bang = '!' ∧ bracket = '[' then
      let alt := s.takeWhile (· != ']')
      if alt = [] then none
      else
        match s.dropWhile (· != ']') with
        | cl :: par :: t =>
          if cl = ']' ∧ par = '(' then
            let url := t.takeWhile (· != ')')
            if url = [] then none
            else
              match t.dropWhile (· != ')') with
              | clp :: rest => if clp = ')' then some (alt, url, rest) else none
              | _ => none
          else none
        | _ => none
    else none
  | _ => none

/-- The tail of `repl_and_download_image` from the `requests.get` call
on: a raised network error propagates; a non-ok status warns and gives
back `match.group(0)` (the original reference, with the original URL);
otherwise the body is hashed, deduplicated against `downloaded_images`,
and a new image gets `slugify(image_alt) + image_ext` as filename and is
written out. -/
def repl_fetch (fetch : String → Except Unit (Bool × List Nat))
    (slugBase : String → String) (alt : List Char) (url : String)
    (urlOrig : List Char) (st : ConvState) :
    Except PyError (List Char × ConvState) :=
  match fetch url with
  | .error _ => .error PyError.requestsException
  | .ok (okFlag, content) =>
    if okFlag = false then
      .ok (mkRef alt urlOrig, { st with warnings := st.warnings + 1 })
    else
      let ext := image_ext_of url.data
      match lookupBytes content st.downloaded_images with
      | some fn => .ok (mkRef alt fn.data, st)
      | none =>
        let slug := uniqSlug st.used_slugs (slugBase (String.mk alt))
        let fn := slug ++ String.mk ext
        .ok (mkRef alt fn.data,
          { st with used_slugs := slug :: st.used_slugs,
                    downloaded_images := (content, fn) :: st.downloaded_images,
                    files := st.files ++ [(fn, content)] })

/-- `repl_and_download_image` on a match with groups `alt` and `url`:
an `http(s)://` URL is fetched as-is; a root-relative URL is prefixed
with the site's base origin; otherwise the code calls the nonexistent
`click.echos`, raising `AttributeError` (and it lacks an early return,
so even a working log call would fall through to the fetch). -/
def repl_and_download_image (fetch : String → Except Unit (Bool × List Nat))
    (slugBase : String → String) (alt url : List Char) (st : ConvState) :
    Except PyError (List Char × ConvState) :=
  if "http://".data.isPrefixOf url || "https://".data.isPrefixOf url then
    repl_fetch fetch slugBase alt (String.mk url) url st
  else if "/".data.isPrefixOf url then
    repl_fetch fetch slugBase alt (String.mk ("https://zestedesavoir.com".data ++ url)) url st
  else
    .error PyError.attributeError

/-- The `re_image.sub` scan with a substitution budget: try the pattern
at every position, resume after each match, and once the budget is
exhausted copy the rest verbatim.  A raised exception aborts the scan.
Fuel bounds the scan; the text's length is always enough. -/
def imgScan (fetch : String → Except Unit (Bool × List Nat))
    (slugBase : String → String) :
    Nat → Nat → List Char → ConvState → Except PyError (List Char × ConvState)
  | 0, _, s, st => .ok (s, st)
  | _ + 1, 0, s, st => .ok (s, st)
  | fuel + 1, n + 1, s, st =>
    match matchImage s with
    | some (alt, url, rest) =>
      match repl_and_download_image fetch slugBase alt url st with
      | .error e => .error e
      | .ok (txt, st') =>
        match imgScan fetch slugBase fuel n rest st' with
        | .error e => .error e
        | .ok (out, st'') => .ok (txt ++ out, st'')
    | none =>
      match s with
      | [] => .ok ([], st)
      | c :: t =>
        match imgScan fetch slugBase fuel (n + 1) t st with
        | .error e => .error e
        | .ok (out, st'') => .ok (c :: out, st'')

/-- `download_and_replace_markdown_images`: a fresh `UniqueSlugify`
object per call (the slug state resets, the registry persists), then
`re_image.sub(repl_and_download_image, markdown_source, re.MULTILINE)` —
the flag's value 8 landing in the count slot. -/
def download_and_replace_markdown_images
    (fetch : String → Except Unit (Bool × List Nat))
    (slugBase : String → String) (s : String) (st : ConvState) :
    Except PyError (String × ConvState) :=
  match imgScan fetch slugBase s.data.length 8 s.data
      { st with used_slugs := [] } with
  | .error e => .error e
  | .ok (out, st') => .ok (String.mk out, st')

/-- Modelled from the spec: "the file extension taken from the URL's
last path segment" — the suffix after the final dot of the segment
after the final slash.  Stated only to compare the spec's filename rule
with the code's `image_ext_of`. -/
def extOfLastSegment (url : List Char) : List Char :=
  '.' :: afterLastDot ((url.reverse.takeWhile (· != '/')).reverse)

/-- Characters that may appear in a parametric header title or text
line: alphanumeric or a space.  Such characters are never part of any
pattern's markup (`#`, `=`, `-`, newlines). -/
def safeChar (c : Char) : Prop := c.isAlphanum = true ∨ c = ' '

/-- A nonempty title of safe characters. -/
def okTitle (h : List Char) : Prop := h ≠ [] ∧ ∀ c ∈ h, safeChar c

instance : DecidablePred safeChar := fun c => by
  unfold safeChar; infer_instance

instance (h : List Char) : Decidable (okTitle h) := by
  unfold okTitle; infer_instance

/-- The claim's multi-header document: ATX headers of levels 1, 2, 5
and 6 with the given titles, interspersed with body text and blank
lines (the shape of the source's own doctest). -/
def docC6 (h1 h2 h5 h6 : List Char) : List Char :=
  '\n' :: '#' :: ' ' :: (h1 ++ '\n' :: '\n' :: ("Lorem ipsum".data ++
    '\n' :: '\n' :: '#' :: '#' :: ' ' :: (h2 ++ '\n' :: '\n' :: ("Lorem ipsum".data ++
      '\n' :: '\n' :: ("Dolor sit".data ++
        '\n' :: '\n' :: '#' :: '#' :: '#' :: '#' :: '#' :: ' ' :: (h5 ++
          '\n' :: '\n' :: '#' :: '#' :: '#' :: '#' :: '#' :: '#' :: ' ' :: (h6 ++ ['\n'])))))))

/-- The expected image of `docC6` under the shift: levels 2, 3, 6 and 6,
everything else unchanged. -/
def docC6shifted (h1 h2 h5 h6 : List Char) : List Char :=
  '\n' :: '#' :: '#' :: ' ' :: (h1 ++ '\n' :: '\n' :: ("Lorem ipsum".data ++
    '\n' :: '\n' :: '#' :: '#' :: '#' :: ' ' :: (h2 ++ '\n' :: '\n' :: ("Lorem ipsum".data ++
      '\n' :: '\n' :: ("Dolor sit".data ++
        '\n' :: '\n' :: '#' :: '#' :: '#' :: '#' :: '#' :: '#' :: ' ' :: (h5 ++
          '\n' :: '\n' :: '#' :: '#' :: '#' :: '#' :: '#' :: '#' :: ' ' :: (h6 ++ ['\n'])))))))

/-- No newline or carriage return among the characters: the scanner can
only copy such a run. -/
def noNL (xs : List Char) : Prop := ∀ c ∈ xs, c ≠ '\n' ∧ c ≠ '\r'

instance (xs : List Char) : Decidable (noNL xs) := by
  unfold noNL; infer_instance

/-- A document tail as blank-line-separated segments, each paired with
the segment the pass under study rewrites it to: the rendering of the
input side. -/
def rendIn : List (List Char × List Char) → List Char
  | [] => ['\n']
  | (A, _) :: ss => '\n' :: '\n' :: (A ++ rendIn ss)

/-- The rendering of the output side. -/
def rendOut : List (List Char × List Char) → List Char
  | [] => ['\n']
  | (_, B) :: ss => '\n' :: '\n' :: (B ++ rendOut ss)

/-- The input rendering after one newline was consumed by a match. -/
def rendInRest : List (List Char × List Char) → List Char
  | [] => []
  | (A, _) :: ss => '\n' :: (A ++ rendIn ss)

/-- The output rendering after one newline. -/
def rendOutRest : List (List Char × List Char) → List Char
  | [] => []
  | (_, B) :: ss => '\n' :: (B ++ rendOut ss)

/-- How one pass acts on a segmented document tail: each segment is
either skipped (the core fails on its suffix, the segment has no line
break, and it is kept) or hit (the core rewrites exactly the segment
and consumes the first of the two following newlines). -/
inductive SegsOk (core : List Char → Option (List Char × List Char)) :
    List (List Char × List Char) → Prop
  | nil : SegsOk core []
  | skip {A : List Char} {ss : List (List Char × List Char)} :
      core (A ++ rendIn ss) = none → noNL A → SegsOk core ss →
      SegsOk core ((A, A) :: ss)
  | hit {A B : List Char} {ss : List (List Char × List Char)} :
      core (A ++ rendIn ss) = some (B ++ ['\n'], rendInRest ss) →
      SegsOk core ss → SegsOk core ((A, B) :: ss)

/-- `docC6` after the level-5 pass: the level-5 header became level 6,
the rest is untouched. -/
def docC6mid1 (h1 h2 h5 h6 : List Char) : List Char :=
  '\n' :: '#' :: ' ' :: (h1 ++ '\n' :: '\n' :: ("Lorem ipsum".data ++
    '\n' :: '\n' :: '#' :: '#' :: ' ' :: (h2 ++ '\n' :: '\n' :: ("Lorem ipsum".data ++
      '\n' :: '\n' :: ("Dolor sit".data ++
        '\n' :: '\n' :: '#' :: '#' :: '#' :: '#' :: '#' :: '#' :: ' ' :: (h5 ++
          '\n' :: '\n' :: '#' :: '#' :: '#' :: '#' :: '#' :: '#' :: ' ' :: (h6 ++ ['\n'])))))))

/-- `docC6` after the level-5 and level-2 passes: levels 1, 3, 6, 6. -/
def docC6mid2 (h1 h2 h5 h6 : List Char) : List Char :=
  '\n' :: '#' :: ' ' :: (h1 ++ '\n' :: '\n' :: ("Lorem ipsum".data ++
    '\n' :: '\n' :: '#' :: '#' :: '#' :: ' ' :: (h2 ++ '\n' :: '\n' :: ("Lorem ipsum".data ++
      '\n' :: '\n' :: ("Dolor sit".data ++
        '\n' :: '\n' :: '#' :: '#' :: '#' :: '#' :: '#' :: '#' :: ' ' :: (h5 ++
          '\n' :: '\n' :: '#' :: '#' :: '#' :: '#' :: '#' :: '#' :: ' ' :: (h6 ++ ['\n'])))))))

/-! ## Scanner laws

The parametric claims run the passes symbolically: how one `boundSub`
step behaves at its canonical fuel (the remaining text's length), that
any dominating fuel computes the same scan, and how a pass slides over
text in which the pattern cannot match. -/

theorem dropLit_eq_append {p s t : List Char} (h : dropLit p s = some t) :
    s = p ++ t := by
  induction p generalizing s with
  | nil =>
    simp only [dropLit, Option.some.injEq] at h
    simp [h]
  | cons c p ih =>
    cases s with
    | nil => simp [dropLit] at h
    | cons d s =>
      simp only [dropLit] at h
      split at h
      · next hd => rw [List.cons_append, hd, ih h]
      · exact absurd h (by simp)

theorem dropLit_some_length {p s t : List Char} (h : dropLit p s = some t) :
    s.length = p.length + t.length := by
  rw [dropLit_eq_append h, List.length_append]

theorem takeWhile_first {p : Char → Bool} {l : List Char} {x : Char}
    {xs : List Char} (h : l.takeWhile p = x :: xs) : p x = true := by
  cases l with
  | nil => simp [List.takeWhile] at h
  | cons a t =>
    rw [List.takeWhile_cons] at h
    split at h
    · cases h; assumption
    · simp at h

theorem twStop {p : Char → Bool} {xs : List Char} {y : Char}
    {rest : List Char} (h : ∀ c ∈ xs, p c = true) (hy : p y = false) :
    (xs ++ y :: rest).takeWhile p = xs := by
  induction xs with
  | nil => simp [List.takeWhile_cons, hy]
  | cons a t ih =>
    have ha := h a (by simp)
    simp only [List.cons_append, List.takeWhile_cons, ha, if_true]
    rw [ih (fun c hc => h c (by simp [hc]))]

theorem dwStop {p : Char → Bool} {xs : List Char} {y : Char}
    {rest : List Char} (h : ∀ c ∈ xs, p c = true) (hy : p y = false) :
    (xs ++ y :: rest).dropWhile p = y :: rest := by
  induction xs with
  | nil => simp [List.dropWhile_cons, hy]
  | cons a t ih =>
    have ha := h a (by simp)
    simp [List.dropWhile_cons, ha, ih (fun c hc => h c (by simp [hc]))]

theorem coreAtx_rest_lt {n : Nat} {s : List Char} {pr : List Char × List Char}
    (h : coreAtx n s = some pr) : pr.2.length < s.length := by
  unfold coreAtx at h
  cases hd : dropLit (hashes n ++ [' ']) s with
  | none => rw [hd] at h; exact absurd h (by simp)
  | some t =>
    rw [hd] at h
    have hlen : s.length = n + 1 + t.length := by
      simpa [hashes] using dropLit_some_length hd
    dsimp only at h
    split at h
    · exact absurd h (by simp)
    · cases hdw : t.dropWhile (· != '\n') with
      | nil =>
        rw [hdw] at h
        cases h
        simp [hlen]
      | cons d rest =>
        rw [hdw] at h
        have hle : (d :: rest).length ≤ t.length := by
          rw [← hdw]; exact (List.dropWhile_sublist _).length_le
        dsimp only at h
        split at h
        · cases h
          simp only [List.length_cons] at hle
          simp only [hlen]
          omega
        · exact absurd h (by simp)

theorem coreSe2_rest_lt {s : List Char} {pr : List Char × List Char}
    (h : coreSe2 s = some pr) : pr.2.length < s.length := by
  unfold coreSe2 at h
  dsimp only at h
  split at h
  · exact absurd h (by simp)
  · cases hdw : s.dropWhile (· != '\n') with
    | nil => rw [hdw] at h; exact absurd h (by simp)
    | cons nl t =>
      rw [hdw] at h
      have hle : (nl :: t).length ≤ s.length := by
        rw [← hdw]; exact (List.dropWhile_sublist _).length_le
      simp only [List.length_cons] at hle
      dsimp only at h
      split at h
      · exact absurd h (by simp)
      · split at h
        · exact absurd h (by simp)
        · cases hdd : t.dropWhile (· == '-') with
          | nil =>
            rw [hdd] at h
            cases h
            simp only [List.length_nil]
            omega
          | cons d rest =>
            rw [hdd] at h
            have hle2 : (d :: rest).length ≤ t.length := by
              rw [← hdd]; exact (List.dropWhile_sublist _).length_le
            simp only [List.length_cons] at hle2
            dsimp only at h
            split at h
            · cases h; simp only []; omega
            · split at h
              · cases rest with
                | nil => exact absurd h (by simp)
                | cons e rest₂ =>
                  dsimp only at h
                  split at h
                  · cases h
                    simp only [List.length_cons] at hle2 ⊢
                    omega
                  · exact absurd h (by simp)
              · exact absurd h (by simp)

theorem coreSe1_rest_lt {s : List Char} {pr : List Char × List Char}
    (h : coreSe1 s = some pr) : pr.2.length < s.length := by
  unfold coreSe1 at h
  dsimp only at h
  split at h
  · exact absurd h (by simp)
  · cases hdw : s.dropWhile (· != '\n') with
    | nil => rw [hdw] at h; exact absurd h (by simp)
    | cons nl t =>
      rw [hdw] at h
      have hle : (nl :: t).length ≤ s.length := by
        rw [← hdw]; exact (List.dropWhile_sublist _).length_le
      simp only [List.length_cons] at hle
      dsimp only at h
      split at h
      · exact absurd h (by simp)
      · split at h
        · exact absurd h (by simp)
        · cases hdd : t.dropWhile (· == '=') with
          | nil =>
            rw [hdd] at h
            cases h
            simp only [List.length_nil]
            omega
          | cons d rest =>
            rw [hdd] at h
            have hle2 : (d :: rest).length ≤ t.length := by
              rw [← hdd]; exact (List.dropWhile_sublist _).length_le
            simp only [List.length_cons] at hle2
            dsimp only at h
            split at h
            · cases h; simp only []; omega
            · split at h
              · cases rest with
                | nil => exact absurd h (by simp)
                | cons e rest₂ =>
                  dsimp only at h
                  split at h
                  · cases h
                    simp only [List.length_cons] at hle2 ⊢
                    omega
                  · exact absurd h (by simp)
              · exact absurd h (by simp)

/-- The fuel of `boundSub` is irrelevant once it dominates the text's
length, provided every match strictly shrinks the rest of the text —
which the `rest_lt` lemmas establish for each compiled pattern. -/
theorem boundSub_fuel {core : List Char → Option (List Char × List Char)}
    (Hcore : ∀ u pr, core u = some pr → pr.2.length < u.length) :
    ∀ f (first : Bool) (s : List Char), s.length ≤ f →
      boundSub core f first s = boundSub core s.length first s := by
  intro f
  induction f using Nat.strong_induction_on with
  | _ f ih =>
    intro first s hs
    cases f with
    | zero =>
      have hnil : s = [] := by
        cases s with
        | nil => rfl
        | cons c t => simp at hs
      subst hnil; rfl
    | succ f =>
      cases s with
      | nil =>
        cases hc : core [] with
        | some pr => exact absurd (Hcore _ _ hc) (by simp)
        | none =>
          cases first <;> simp [boundSub, hc]
      | cons c t =>
        have hts : t.length ≤ f := by simpa using hs
        have hft : f < f + 1 := Nat.lt_succ_self f
        have htf : t.length < f + 1 := Nat.lt_succ_of_le hts
        have recEq : ∀ X : List Char, X.length ≤ t.length →
            boundSub core f false X = boundSub core t.length false X := by
          intro X hX
          rw [ih f hft false X (le_trans hX hts), ih t.length htf false X hX]
        have hstep : (c :: t).length = t.length + 1 := by simp
        rw [hstep]
        cases first with
        | true =>
          cases hc : core (c :: t) with
          | some pr =>
            have hpr : pr.2.length ≤ t.length := by
              have h2 := Hcore _ _ hc
              simp only [List.length_cons] at h2
              omega
            simp only [boundSub, hc]
            simp [recEq pr.2 hpr]
          | none =>
            simp only [boundSub, hc]
            by_cases h1 : c = '\n'
            · subst h1
              cases hct : core t with
              | some pr2 =>
                have hpr2 : pr2.2.length ≤ t.length :=
                  Nat.le_of_lt (Hcore _ _ hct)
                simp [hct, recEq pr2.2 hpr2]
              | none => simp [hct, recEq t (Nat.le_refl _)]
            · by_cases h2 : c = '\r'
              · subst h2
                cases t with
                | nil => simp [h1, recEq [] (by simp)]
                | cons d t₂ =>
                  by_cases h3 : d = '\n'
                  · subst h3
                    cases hct : core t₂ with
                    | some pr2 =>
                      have hpr2 : pr2.2.length ≤ ('\n' :: t₂).length := by
                        have := Hcore _ _ hct
                        simp only [List.length_cons]
                        omega
                      simp [h1, hct, recEq pr2.2 hpr2]
                    | none =>
                      simp [h1, hct, recEq ('\n' :: t₂) (Nat.le_refl _)]
                  · simp [h1, h3, recEq (d :: t₂) (Nat.le_refl _)]
              · simp [h1, h2, recEq t (Nat.le_refl _)]
        | false =>
          simp only [boundSub]
          by_cases h1 : c = '\n'
          · subst h1
            cases hct : core t with
            | some pr2 =>
              have hpr2 : pr2.2.length ≤ t.length := Nat.le_of_lt (Hcore _ _ hct)
              simp [hct, recEq pr2.2 hpr2]
            | none => simp [hct, recEq t (Nat.le_refl _)]
          · by_cases h2 : c = '\r'
            · subst h2
              cases t with
              | nil => simp [h1, recEq [] (by simp)]
              | cons d t₂ =>
                by_cases h3 : d = '\n'
                · subst h3
                  cases hct : core t₂ with
                  | some pr2 =>
                    have hpr2 : pr2.2.length ≤ ('\n' :: t₂).length := by
                      have := Hcore _ _ hct
                      simp only [List.length_cons]
                      omega
                    simp [h1, hct, recEq pr2.2 hpr2]
                  | none =>
                    simp [h1, hct, recEq ('\n' :: t₂) (Nat.le_refl _)]
                · simp [h1, h3, recEq (d :: t₂) (Nat.le_refl _)]
            · simp [h1, h2, recEq t (Nat.le_refl _)]

/-- The definitional unfolding of one fuelled step of `boundSub`. -/
theorem boundSub_succ (core : List Char → Option (List Char × List Char))
    (f : Nat) (first : Bool) (s : List Char) :
    boundSub core (f + 1) first s =
      match (if first then core s else none) with
      | some pr => pr.1 ++ boundSub core f false pr.2
      | none =>
        match s with
        | [] => []
        | c :: t =>
          if c = '\n' then
            match core t with
            | some pr => '\n' :: (pr.1 ++ boundSub core f false pr.2)
            | none => '\n' :: boundSub core f false t
          else if c = '\r' then
            match t with
            | [] => c :: boundSub core f false t
            | d :: t₂ =>
              if d = '\n' then
                match core t₂ with
                | some pr => '\r' :: '\n' :: (pr.1 ++ boundSub core f false pr.2)
                | none => '\r' :: boundSub core f false (d :: t₂)
              else c :: boundSub core f false t
          else c :: boundSub core f false t := rfl

theorem runPass_core_some {core : List Char → Option (List Char × List Char)}
    (Hcore : ∀ u pr, core u = some pr → pr.2.length < u.length)
    {s : List Char} {pr : List Char × List Char} (h : core s = some pr) :
    runPass core s = pr.1 ++ scanF core pr.2 := by
  cases s with
  | nil => exact absurd (Hcore _ _ h) (by simp)
  | cons c t =>
    show boundSub core (c :: t).length true (c :: t) = _
    have hpr : pr.2.length ≤ t.length := by
      have h2 := Hcore _ _ h
      simp only [List.length_cons] at h2
      omega
    simp only [List.length_cons, boundSub, h]
    simp [scanF, boundSub_fuel Hcore t.length false pr.2 hpr]

theorem runPass_core_none {core : List Char → Option (List Char × List Char)}
    {s : List Char} (h : core s = none) : runPass core s = scanF core s := by
  cases s with
  | nil => rfl
  | cons c t =>
    show boundSub core (c :: t).length true (c :: t)
        = boundSub core (c :: t).length false (c :: t)
    simp only [List.length_cons, boundSub, h]
    simp

theorem scanF_nil {core : List Char → Option (List Char × List Char)} :
    scanF core [] = [] := rfl

theorem scanF_cons {core : List Char → Option (List Char × List Char)}
    {c : Char} {t : List Char} (h1 : c ≠ '\n') (h2 : c ≠ '\r') :
    scanF core (c :: t) = c :: scanF core t := by
  show boundSub core (c :: t).length false (c :: t) = _
  simp [boundSub, h1, h2, scanF]

theorem scanF_nl_none {core : List Char → Option (List Char × List Char)}
    {t : List Char} (h : core t = none) :
    scanF core ('\n' :: t) = '\n' :: scanF core t := by
  show boundSub core ('\n' :: t).length false ('\n' :: t) = _
  simp [boundSub, h, scanF]

theorem scanF_nl_some {core : List Char → Option (List Char × List Char)}
    (Hcore : ∀ u pr, core u = some pr → pr.2.length < u.length)
    {t : List Char} {pr : List Char × List Char} (h : core t = some pr) :
    scanF core ('\n' :: t) = '\n' :: (pr.1 ++ scanF core pr.2) := by
  show boundSub core ('\n' :: t).length false ('\n' :: t) = _
  have hpr : pr.2.length ≤ t.length := Nat.le_of_lt (Hcore _ _ h)
  simp [boundSub, h, scanF, boundSub_fuel Hcore t.length false pr.2 hpr]

theorem scanF_cr_nl_none {core : List Char → Option (List Char × List Char)}
    {t₂ : List Char} (h : core t₂ = none) :
    scanF core ('\r' :: '\n' :: t₂) = '\r' :: scanF core ('\n' :: t₂) := by
  show boundSub core ('\r' :: '\n' :: t₂).length false ('\r' :: '\n' :: t₂) = _
  simp [boundSub, h, scanF]

theorem scanF_cr_nl_some {core : List Char → Option (List Char × List Char)}
    (Hcore : ∀ u pr, core u = some pr → pr.2.length < u.length)
    {t₂ : List Char} {pr : List Char × List Char} (h : core t₂ = some pr) :
    scanF core ('\r' :: '\n' :: t₂) = '\r' :: '\n' :: (pr.1 ++ scanF core pr.2) := by
  show boundSub core ('\r' :: '\n' :: t₂).length false ('\r' :: '\n' :: t₂) = _
  have hpr : pr.2.length ≤ t₂.length + 1 := by
    have := Hcore _ _ h
    omega
  simp only [List.length_cons]
  rw [boundSub_succ]
  simp [h, scanF, boundSub_fuel Hcore (t₂.length + 1) false pr.2 hpr]

theorem scanF_cr_ne {core : List Char → Option (List Char × List Char)}
    {d : Char} {t₂ : List Char} (hd : d ≠ '\n') :
    scanF core ('\r' :: d :: t₂) = '\r' :: scanF core (d :: t₂) := by
  show boundSub core ('\r' :: d :: t₂).length false ('\r' :: d :: t₂) = _
  simp [boundSub, hd, scanF]

theorem scanF_cr_nil {core : List Char → Option (List Char × List Char)} :
    scanF core ['\r'] = ['\r'] := rfl

/-- Sliding over a run of characters in which the `\r?\n` boundary can
never sit: the scan copies it verbatim. -/
theorem scanF_opaque {core : List Char → Option (List Char × List Char)}
    {xs rest : List Char} (h : ∀ c ∈ xs, c ≠ '\n' ∧ c ≠ '\r') :
    scanF core (xs ++ rest) = xs ++ scanF core rest := by
  induction xs with
  | nil => simp
  | cons a t ih =>
    have ha := h a (by simp)
    rw [List.cons_append, scanF_cons ha.1 ha.2,
      ih (fun c hc => h c (by simp [hc]))]
    rfl

/-- If the core fails at every newline boundary inside `s`, the scan
from a non-initial position leaves `s` unchanged. -/
theorem scanF_id {core : List Char → Option (List Char × List Char)}
    {s : List Char} (hb : ∀ t, ('\n' :: t) <:+ s → core t = none) :
    scanF core s = s := by
  induction s with
  | nil => rfl
  | cons c t ih =>
    have hbt : ∀ u, ('\n' :: u) <:+ t → core u = none := fun u hu =>
      hb u (hu.trans (List.suffix_cons c t))
    by_cases h1 : c = '\n'
    · subst h1
      rw [scanF_nl_none (hb t (List.suffix_refl _)), ih hbt]
    · by_cases h2 : c = '\r'
      · subst h2
        cases t with
        | nil => exact scanF_cr_nil
        | cons d t₂ =>
          by_cases h3 : d = '\n'
          · subst h3
            rw [scanF_cr_nl_none (hb t₂ (List.suffix_cons '\r' _)), ih hbt]
          · rw [scanF_cr_ne h3, ih hbt]
      · rw [scanF_cons h1 h2, ih hbt]

/-- If additionally the core fails at the very start, the whole pass is
the identity. -/
theorem runPass_id {core : List Char → Option (List Char × List Char)}
    {s : List Char} (h0 : core s = none)
    (hb : ∀ t, ('\n' :: t) <:+ s → core t = none) : runPass core s = s := by
  rw [runPass_core_none h0, scanF_id hb]

/-- A pass whose every match needs a character the text lacks is the
identity. -/
theorem runPass_id_of_not_mem {core : List Char → Option (List Char × List Char)}
    (bc : Char) (hc : ∀ u pr, core u = some pr → bc ∈ u)
    {s : List Char} (h : bc ∉ s) : runPass core s = s := by
  have h0 : core s = none := by
    cases hcs : core s with
    | none => rfl
    | some pr => exact absurd (hc _ _ hcs) h
  refine runPass_id h0 (fun t ht => ?_)
  cases hct : core t with
  | none => rfl
  | some pr =>
    exact absurd (ht.mem (List.mem_cons_of_mem _ (hc _ _ hct))) h

theorem core_nil_none {core : List Char → Option (List Char × List Char)}
    (Hcore : ∀ u pr, core u = some pr → pr.2.length < u.length) :
    core [] = none := by
  cases hc : core [] with
  | none => rfl
  | some pr => exact absurd (Hcore _ _ hc) (by simp)

theorem rendIn_eq {ss : List (List Char × List Char)} :
    rendIn ss = '\n' :: rendInRest ss := by
  cases ss with
  | nil => rfl
  | cons p ss => cases p; rfl

theorem rendOut_eq {ss : List (List Char × List Char)} :
    rendOut ss = '\n' :: rendOutRest ss := by
  cases ss with
  | nil => rfl
  | cons p ss => cases p; rfl

/-- The scan of a segmented tail whose first newline was consumed: each
skipped segment is copied, each hit segment is rewritten. -/
theorem scanF_rendInRest {core : List Char → Option (List Char × List Char)}
    (Hcore : ∀ u pr, core u = some pr → pr.2.length < u.length)
    (Hnl : ∀ u, core ('\n' :: u) = none)
    {ss : List (List Char × List Char)} (h : SegsOk core ss) :
    scanF core (rendInRest ss) = rendOutRest ss := by
  induction h with
  | nil => rfl
  | @skip A ss hcoreA hANL hss ih =>
    show scanF core ('\n' :: (A ++ rendIn ss)) = '\n' :: (A ++ rendOut ss)
    rw [scanF_nl_none hcoreA, scanF_opaque hANL]
    have hnone : core (rendInRest ss) = none := by
      cases ss with
      | nil => exact core_nil_none Hcore
      | cons p ss' => exact Hnl _
    rw [rendIn_eq, rendOut_eq, scanF_nl_none hnone, ih]
  | @hit A B ss hcoreA hss ih =>
    show scanF core ('\n' :: (A ++ rendIn ss)) = '\n' :: (B ++ rendOut ss)
    rw [scanF_nl_some Hcore hcoreA, ih, rendOut_eq]
    simp

/-- A whole pass on a document of the shape `'\n' :: first line ++
blank-line-separated segments`. -/
theorem runPass_segs {core : List Char → Option (List Char × List Char)}
    (Hcore : ∀ u pr, core u = some pr → pr.2.length < u.length)
    (Hnl : ∀ u, core ('\n' :: u) = none)
    {A1 B1 : List Char} {ss : List (List Char × List Char)}
    (h1 : (core (A1 ++ rendIn ss) = none ∧ noNL A1 ∧ B1 = A1) ∨
      core (A1 ++ rendIn ss) = some (B1 ++ ['\n'], rendInRest ss))
    (hss : SegsOk core ss) :
    runPass core ('\n' :: (A1 ++ rendIn ss)) = '\n' :: (B1 ++ rendOut ss) := by
  have h0 : core ('\n' :: (A1 ++ rendIn ss)) = none := Hnl _
  rw [runPass_core_none h0]
  have hnone : core (rendInRest ss) = none := by
    cases ss with
    | nil => exact core_nil_none Hcore
    | cons p ss' => exact Hnl _
  rcases h1 with ⟨hc, hA, rfl⟩ | hc
  · rw [scanF_nl_none hc, scanF_opaque hA, rendIn_eq, rendOut_eq,
      scanF_nl_none hnone, scanF_rendInRest Hcore Hnl hss]
  · rw [scanF_nl_some Hcore hc, scanF_rendInRest Hcore Hnl hss, rendOut_eq]
    simp

theorem coreAtx_some_mem {n : Nat} {s : List Char} {pr : List Char × List Char}
    (hn : 1 ≤ n) (h : coreAtx n s = some pr) : '#' ∈ s := by
  unfold coreAtx at h
  cases hd : dropLit (hashes n ++ [' ']) s with
  | none => rw [hd] at h; exact absurd h (by simp)
  | some t =>
    rw [dropLit_eq_append hd]
    have hh : '#' ∈ hashes n := by
      rw [hashes, List.mem_replicate]
      exact ⟨by omega, rfl⟩
    simp [hh]

theorem coreSe2_some_mem {s : List Char} {pr : List Char × List Char}
    (h : coreSe2 s = some pr) : '-' ∈ s := by
  unfold coreSe2 at h
  dsimp only at h
  by_cases hg : s.takeWhile (· != '\n') = []
  · rw [if_pos hg] at h; exact absurd h (by simp)
  · rw [if_neg hg] at h
    cases hdw : s.dropWhile (· != '\n') with
    | nil => rw [hdw] at h; exact absurd h (by simp)
    | cons nl t =>
      rw [hdw] at h
      dsimp only at h
      by_cases hnl : nl ≠ '\n'
      · rw [if_pos hnl] at h; exact absurd h (by simp)
      · rw [if_neg hnl] at h
        by_cases hds : (t.takeWhile (· == '-')).length < 2
        · rw [if_pos hds] at h; exact absurd h (by simp)
        · cases htw : t.takeWhile (· == '-') with
          | nil => rw [htw] at hds; simp at hds
          | cons x xs =>
            have hx : x = '-' := by simpa using takeWhile_first htw
            subst hx
            have hxt : '-' ∈ t :=
              (List.takeWhile_sublist _).mem (by rw [htw]; simp)
            exact (List.dropWhile_sublist _).mem
              (by rw [hdw]; exact List.mem_cons_of_mem _ hxt)

theorem coreSe1_some_mem {s : List Char} {pr : List Char × List Char}
    (h : coreSe1 s = some pr) : '=' ∈ s := by
  unfold coreSe1 at h
  dsimp only at h
  by_cases hg : s.takeWhile (· != '\n') = []
  · rw [if_pos hg] at h; exact absurd h (by simp)
  · rw [if_neg hg] at h
    cases hdw : s.dropWhile (· != '\n') with
    | nil => rw [hdw] at h; exact absurd h (by simp)
    | cons nl t =>
      rw [hdw] at h
      dsimp only at h
      by_cases hnl : nl ≠ '\n'
      · rw [if_pos hnl] at h; exact absurd h (by simp)
      · rw [if_neg hnl] at h
        by_cases hds : (t.takeWhile (· == '=')).length < 2
        · rw [if_pos hds] at h; exact absurd h (by simp)
        · cases htw : t.takeWhile (· == '=') with
          | nil => rw [htw] at hds; simp at hds
          | cons x xs =>
            have hx : x = '=' := by simpa using takeWhile_first htw
            subst hx
            have hxt : '=' ∈ t :=
              (List.takeWhile_sublist _).mem (by rw [htw]; simp)
            exact (List.dropWhile_sublist _).mem
              (by rw [hdw]; exact List.mem_cons_of_mem _ hxt)

theorem safeChar_ne {c : Char} (h : safeChar c) :
    c ≠ '\n' ∧ c ≠ '\r' ∧ c ≠ '#' ∧ c ≠ '=' ∧ c ≠ '-' := by
  rcases h with h | h
  · refine ⟨?_, ?_, ?_, ?_, ?_⟩ <;> (rintro rfl; exact absurd h (by decide))
  · subst h; exact ⟨by decide, by decide, by decide, by decide, by decide⟩

theorem dropLit_self {p x : List Char} : dropLit p (p ++ x) = some x := by
  induction p with
  | nil => rfl
  | cons c p ih => simp [dropLit, ih]

theorem coreAtx_dropLit_none {n : Nat} {s : List Char}
    (h : dropLit (hashes n ++ [' ']) s = none) : coreAtx n s = none := by
  unfold coreAtx
  rw [h]

theorem coreAtx_head_ne {n : Nat} (hn : 1 ≤ n) {c : Char} (hc : c ≠ '#')
    (rest : List Char) : coreAtx n (c :: rest) = none := by
  obtain ⟨m, rfl⟩ : ∃ m, n = m + 1 := ⟨n - 1, by omega⟩
  apply coreAtx_dropLit_none
  rw [show hashes (m + 1) ++ [' '] = '#' :: (hashes m ++ [' ']) from by
    simp [hashes, List.replicate_succ]]
  simp [dropLit, hc]

theorem dropLit_hashes_space {n k : Nat} (hnk : n ≠ k) {y : List Char} :
    dropLit (hashes n ++ [' ']) (hashes k ++ ' ' :: y) = none := by
  induction n generalizing k with
  | zero =>
    obtain ⟨m, rfl⟩ : ∃ m, k = m + 1 := ⟨k - 1, by omega⟩
    rw [show hashes (m + 1) ++ ' ' :: y = '#' :: (hashes m ++ ' ' :: y) from by
      simp [hashes, List.replicate_succ]]
    simp [hashes, dropLit]
  | succ n ih =>
    rw [show hashes (n + 1) ++ [' '] = '#' :: (hashes n ++ [' ']) from by
      simp [hashes, List.replicate_succ]]
    cases k with
    | zero => simp [hashes, dropLit]
    | succ m =>
      rw [show hashes (m + 1) ++ ' ' :: y = '#' :: (hashes m ++ ' ' :: y) from by
        simp [hashes, List.replicate_succ]]
      simp only [dropLit, if_pos rfl]
      exact ih (by omega)

/-- A level-`k` ATX header line never matches the level-`n` pattern for
`n ≠ k`: the literal hash run collides with the space either way. -/
theorem coreAtx_hashes_space_fail {n k : Nat} (hnk : n ≠ k)
    {xs R : List Char} : coreAtx n ((hashes k ++ ' ' :: xs) ++ R) = none := by
  apply coreAtx_dropLit_none
  rw [show (hashes k ++ ' ' :: xs) ++ R = hashes k ++ ' ' :: (xs ++ R) from by
    simp]
  exact dropLit_hashes_space hnk

/-- The level-`n` pattern does match a level-`n` header line of a safe
nonempty title, rewriting it to level `n + 1` and consuming the line's
newline. -/
theorem coreAtx_hit {n : Nat} {h R : List Char} (hne : h ≠ [])
    (hsafe : ∀ c ∈ h, safeChar c) :
    coreAtx n (hashes n ++ ' ' :: (h ++ '\n' :: R)) =
      some (hashes (n + 1) ++ ' ' :: (h ++ ['\n']), R) := by
  unfold coreAtx
  rw [show hashes n ++ ' ' :: (h ++ '\n' :: R)
      = (hashes n ++ [' ']) ++ (h ++ '\n' :: R) from by simp]
  rw [dropLit_self]
  dsimp only
  rw [twStop (fun c hc => by simpa using (safeChar_ne (hsafe c hc)).1) (by simp),
    dwStop (fun c hc => by simpa using (safeChar_ne (hsafe c hc)).1) (by simp)]
  rw [if_neg hne]
  simp

/-- A header line of hashes, a space and a safe title has no line
break. -/
theorem noNL_header {h : List Char} (hs : ∀ c ∈ h, safeChar c) {k : Nat} :
    noNL (hashes k ++ ' ' :: h) := by
  intro c hc
  rcases List.mem_append.mp hc with hc | hc
  · rw [hashes] at hc
    rw [List.eq_of_mem_replicate hc]
    exact ⟨by decide, by decide⟩
  · rcases List.mem_cons.mp hc with rfl | hc
    · exact ⟨by decide, by decide⟩
    · exact ⟨(safeChar_ne (hs c hc)).1, (safeChar_ne (hs c hc)).2.1⟩

theorem pass5_docC6 (h1 h2 h5 h6 : List Char)
    (hs1 : ∀ c ∈ h1, safeChar c) (hs2 : ∀ c ∈ h2, safeChar c)
    (hne5 : h5 ≠ []) (hs5 : ∀ c ∈ h5, safeChar c)
    (hs6 : ∀ c ∈ h6, safeChar c) :
    runPass (coreAtx 5) (docC6 h1 h2 h5 h6) = docC6mid1 h1 h2 h5 h6 := by
  have Hc : ∀ u pr, coreAtx 5 u = some pr → pr.2.length < u.length :=
    fun u pr h => coreAtx_rest_lt h
  have Hnl : ∀ u, coreAtx 5 ('\n' :: u) = none :=
    fun u => coreAtx_head_ne (by norm_num) (by decide) u
  show runPass (coreAtx 5)
      ('\n' :: (('#' :: ' ' :: h1) ++ rendIn
        [("Lorem ipsum".data, "Lorem ipsum".data),
         ('#' :: '#' :: ' ' :: h2, '#' :: '#' :: ' ' :: h2),
         ("Lorem ipsum".data, "Lorem ipsum".data),
         ("Dolor sit".data, "Dolor sit".data),
         ('#' :: '#' :: '#' :: '#' :: '#' :: ' ' :: h5,
          '#' :: '#' :: '#' :: '#' :: '#' :: '#' :: ' ' :: h5),
         ('#' :: '#' :: '#' :: '#' :: '#' :: '#' :: ' ' :: h6,
          '#' :: '#' :: '#' :: '#' :: '#' :: '#' :: ' ' :: h6)]))
      = '\n' :: (('#' :: ' ' :: h1) ++ rendOut
        [("Lorem ipsum".data, "Lorem ipsum".data),
         ('#' :: '#' :: ' ' :: h2, '#' :: '#' :: ' ' :: h2),
         ("Lorem ipsum".data, "Lorem ipsum".data),
         ("Dolor sit".data, "Dolor sit".data),
         ('#' :: '#' :: '#' :: '#' :: '#' :: ' ' :: h5,
          '#' :: '#' :: '#' :: '#' :: '#' :: '#' :: ' ' :: h5),
         ('#' :: '#' :: '#' :: '#' :: '#' :: '#' :: ' ' :: h6,
          '#' :: '#' :: '#' :: '#' :: '#' :: '#' :: ' ' :: h6)])
  refine runPass_segs Hc Hnl (Or.inl ⟨?_, ?_, rfl⟩) ?_
  · exact coreAtx_hashes_space_fail (n := 5) (k := 1) (by decide)
  · exact noNL_header hs1 (k := 1)
  · refine SegsOk.skip ?_ ?_ (SegsOk.skip ?_ ?_ (SegsOk.skip ?_ ?_
      (SegsOk.skip ?_ ?_ (SegsOk.hit ?_ (SegsOk.skip ?_ ?_ SegsOk.nil)))))
    · exact coreAtx_head_ne (by norm_num) (by decide) _
    · exact (by decide : noNL "Lorem ipsum".data)
    · exact coreAtx_hashes_space_fail (n := 5) (k := 2) (by decide)
    · exact noNL_header hs2 (k := 2)
    · exact coreAtx_head_ne (by norm_num) (by decide) _
    · exact (by decide : noNL "Lorem ipsum".data)
    · exact coreAtx_head_ne (by norm_num) (by decide) _
    · exact (by decide : noNL "Dolor sit".data)
    · rw [rendIn_eq]
      exact coreAtx_hit (n := 5) hne5 hs5
    · exact coreAtx_hashes_space_fail (n := 5) (k := 6) (by decide)
    · exact noNL_header hs6 (k := 6)

theorem pass4_docC6mid1 (h1 h2 h5 h6 : List Char)
    (hs1 : ∀ c ∈ h1, safeChar c) (hs2 : ∀ c ∈ h2, safeChar c)
    (hs5 : ∀ c ∈ h5, safeChar c) (hs6 : ∀ c ∈ h6, safeChar c) :
    runPass (coreAtx 4) (docC6mid1 h1 h2 h5 h6) = docC6mid1 h1 h2 h5 h6 := by
  have Hc : ∀ u pr, coreAtx 4 u = some pr → pr.2.length < u.length :=
    fun u pr h => coreAtx_rest_lt h
  have Hnl : ∀ u, coreAtx 4 ('\n' :: u) = none :=
    fun u => coreAtx_head_ne (by norm_num) (by decide) u
  show runPass (coreAtx 4)
      ('\n' :: (('#' :: ' ' :: h1) ++ rendIn
        [("Lorem ipsum".data, "Lorem ipsum".data),
         ('#' :: '#' :: ' ' :: h2, '#' :: '#' :: ' ' :: h2),
         ("Lorem ipsum".data, "Lorem ipsum".data),
         ("Dolor sit".data, "Dolor sit".data),
         ('#' :: '#' :: '#' :: '#' :: '#' :: '#' :: ' ' :: h5,
          '#' :: '#' :: '#' :: '#' :: '#' :: '#' :: ' ' :: h5),
         ('#' :: '#' :: '#' :: '#' :: '#' :: '#' :: ' ' :: h6,
          '#' :: '#' :: '#' :: '#' :: '#' :: '#' :: ' ' :: h6)]))
      = '\n' :: (('#' :: ' ' :: h1) ++ rendOut
        [("Lorem ipsum".data, "Lorem ipsum".data),
         ('#' :: '#' :: ' ' :: h2, '#' :: '#' :: ' ' :: h2),
         ("Lorem ipsum".data, "Lorem ipsum".data),
         ("Dolor sit".data, "Dolor sit".data),
         ('#' :: '#' :: '#' :: '#' :: '#' :: '#' :: ' ' :: h5,
          '#' :: '#' :: '#' :: '#' :: '#' :: '#' :: ' ' :: h5),
         ('#' :: '#' :: '#' :: '#' :: '#' :: '#' :: ' ' :: h6,
          '#' :: '#' :: '#' :: '#' :: '#' :: '#' :: ' ' :: h6)])
  refine runPass_segs Hc Hnl (Or.inl ⟨?_, ?_, rfl⟩) ?_
  · exact coreAtx_hashes_space_fail (n := 4) (k := 1) (by decide)
  · exact noNL_header hs1 (k := 1)
  · refine SegsOk.skip ?_ ?_ (SegsOk.skip ?_ ?_ (SegsOk.skip ?_ ?_
      (SegsOk.skip ?_ ?_ (SegsOk.skip ?_ ?_ (SegsOk.skip ?_ ?_ SegsOk.nil)))))
    · exact coreAtx_head_ne (by norm_num) (by decide) _
    · exact (by decide : noNL "Lorem ipsum".data)
    · exact coreAtx_hashes_space_fail (n := 4) (k := 2) (by decide)
    · exact noNL_header hs2 (k := 2)
    · exact coreAtx_head_ne (by norm_num) (by decide) _
    · exact (by decide : noNL "Lorem ipsum".data)
    · exact coreAtx_head_ne (by norm_num) (by decide) _
    · exact (by decide : noNL "Dolor sit".data)
    · exact coreAtx_hashes_space_fail (n := 4) (k := 6) (by decide)
    · exact noNL_header hs5 (k := 6)
    · exact coreAtx_hashes_space_fail (n := 4) (k := 6) (by decide)
    · exact noNL_header hs6 (k := 6)

theorem pass3_docC6mid1 (h1 h2 h5 h6 : List Char)
    (hs1 : ∀ c ∈ h1, safeChar c) (hs2 : ∀ c ∈ h2, safeChar c)
    (hs5 : ∀ c ∈ h5, safeChar c) (hs6 : ∀ c ∈ h6, safeChar c) :
    runPass (coreAtx 3) (docC6mid1 h1 h2 h5 h6) = docC6mid1 h1 h2 h5 h6 := by
  have Hc : ∀ u pr, coreAtx 3 u = some pr → pr.2.length < u.length :=
    fun u pr h => coreAtx_rest_lt h
  have Hnl : ∀ u, coreAtx 3 ('\n' :: u) = none :=
    fun u => coreAtx_head_ne (by norm_num) (by decide) u
  show runPass (coreAtx 3)
      ('\n' :: (('#' :: ' ' :: h1) ++ rendIn
        [("Lorem ipsum".data, "Lorem ipsum".data),
         ('#' :: '#' :: ' ' :: h2, '#' :: '#' :: ' ' :: h2),
         ("Lorem ipsum".data, "Lorem ipsum".data),
         ("Dolor sit".data, "Dolor sit".data),
         ('#' :: '#' :: '#' :: '#' :: '#' :: '#' :: ' ' :: h5,
          '#' :: '#' :: '#' :: '#' :: '#' :: '#' :: ' ' :: h5),
         ('#' :: '#' :: '#' :: '#' :: '#' :: '#' :: ' ' :: h6,
          '#' :: '#' :: '#' :: '#' :: '#' :: '#' :: ' ' :: h6)]))
      = '\n' :: (('#' :: ' ' :: h1) ++ rendOut
        [("Lorem ipsum".data, "Lorem ipsum".data),
         ('#' :: '#' :: ' ' :: h2, '#' :: '#' :: ' ' :: h2),
         ("Lorem ipsum".data, "Lorem ipsum".data),
         ("Dolor sit".data, "Dolor sit".data),
         ('#' :: '#' :: '#' :: '#' :: '#' :: '#' :: ' ' :: h5,
          '#' :: '#' :: '#' :: '#' :: '#' :: '#' :: ' ' :: h5),
         ('#' :: '#' :: '#' :: '#' :: '#' :: '#' :: ' ' :: h6,
          '#' :: '#' :: '#' :: '#' :: '#' :: '#' :: ' ' :: h6)])
  refine runPass_segs Hc Hnl (Or.inl ⟨?_, ?_, rfl⟩) ?_
  · exact coreAtx_hashes_space_fail (n := 3) (k := 1) (by decide)
  · exact noNL_header hs1 (k := 1)
  · refine SegsOk.skip ?_ ?_ (SegsOk.skip ?_ ?_ (SegsOk.skip ?_ ?_
      (SegsOk.skip ?_ ?_ (SegsOk.skip ?_ ?_ (SegsOk.skip ?_ ?_ SegsOk.nil)))))
    · exact coreAtx_head_ne (by norm_num) (by decide) _
    · exact (by decide : noNL "Lorem ipsum".data)
    · exact coreAtx_hashes_space_fail (n := 3) (k := 2) (by decide)
    · exact noNL_header hs2 (k := 2)
    · exact coreAtx_head_ne (by norm_num) (by decide) _
    · exact (by decide : noNL "Lorem ipsum".data)
    · exact coreAtx_head_ne (by norm_num) (by decide) _
    · exact (by decide : noNL "Dolor sit".data)
    · exact coreAtx_hashes_space_fail (n := 3) (k := 6) (by decide)
    · exact noNL_header hs5 (k := 6)
    · exact coreAtx_hashes_space_fail (n := 3) (k := 6) (by decide)
    · exact noNL_header hs6 (k := 6)

theorem pass2_docC6mid1 (h1 h2 h5 h6 : List Char)
    (hs1 : ∀ c ∈ h1, safeChar c) (hne2 : h2 ≠ []) (hs2 : ∀ c ∈ h2, safeChar c)
    (hs5 : ∀ c ∈ h5, safeChar c) (hs6 : ∀ c ∈ h6, safeChar c) :
    runPass (coreAtx 2) (docC6mid1 h1 h2 h5 h6) = docC6mid2 h1 h2 h5 h6 := by
  have Hc : ∀ u pr, coreAtx 2 u = some pr → pr.2.length < u.length :=
    fun u pr h => coreAtx_rest_lt h
  have Hnl : ∀ u, coreAtx 2 ('\n' :: u) = none :=
    fun u => coreAtx_head_ne (by norm_num) (by decide) u
  show runPass (coreAtx 2)
      ('\n' :: (('#' :: ' ' :: h1) ++ rendIn
        [("Lorem ipsum".data, "Lorem ipsum".data),
         ('#' :: '#' :: ' ' :: h2, '#' :: '#' :: '#' :: ' ' :: h2),
         ("Lorem ipsum".data, "Lorem ipsum".data),
         ("Dolor sit".data, "Dolor sit".data),
         ('#' :: '#' :: '#' :: '#' :: '#' :: '#' :: ' ' :: h5,
          '#' :: '#' :: '#' :: '#' :: '#' :: '#' :: ' ' :: h5),
         ('#' :: '#' :: '#' :: '#' :: '#' :: '#' :: ' ' :: h6,
          '#' :: '#' :: '#' :: '#' :: '#' :: '#' :: ' ' :: h6)]))
      = '\n' :: (('#' :: ' ' :: h1) ++ rendOut
        [("Lorem ipsum".data, "Lorem ipsum".data),
         ('#' :: '#' :: ' ' :: h2, '#' :: '#' :: '#' :: ' ' :: h2),
         ("Lorem ipsum".data, "Lorem ipsum".data),
         ("Dolor sit".data, "Dolor sit".data),
         ('#' :: '#' :: '#' :: '#' :: '#' :: '#' :: ' ' :: h5,
          '#' :: '#' :: '#' :: '#' :: '#' :: '#' :: ' ' :: h5),
         ('#' :: '#' :: '#' :: '#' :: '#' :: '#' :: ' ' :: h6,
          '#' :: '#' :: '#' :: '#' :: '#' :: '#' :: ' ' :: h6)])
  refine runPass_segs Hc Hnl (Or.inl ⟨?_, ?_, rfl⟩) ?_
  · exact coreAtx_hashes_space_fail (n := 2) (k := 1) (by decide)
  · exact noNL_header hs1 (k := 1)
  · refine SegsOk.skip ?_ ?_ (SegsOk.hit ?_ (SegsOk.skip ?_ ?_
      (SegsOk.skip ?_ ?_ (SegsOk.skip ?_ ?_ (SegsOk.skip ?_ ?_ SegsOk.nil)))))
    · exact coreAtx_head_ne (by norm_num) (by decide) _
    · exact (by decide : noNL "Lorem ipsum".data)
    · rw [rendIn_eq]
      exact coreAtx_hit (n := 2) hne2 hs2
    · exact coreAtx_head_ne (by norm_num) (by decide) _
    · exact (by decide : noNL "Lorem ipsum".data)
    · exact coreAtx_head_ne (by norm_num) (by decide) _
    · exact (by decide : noNL "Dolor sit".data)
    · exact coreAtx_hashes_space_fail (n := 2) (k := 6) (by decide)
    · exact noNL_header hs5 (k := 6)
    · exact coreAtx_hashes_space_fail (n := 2) (k := 6) (by decide)
    · exact noNL_header hs6 (k := 6)

theorem pass1_docC6mid2 (h1 h2 h5 h6 : List Char)
    (hne1 : h1 ≠ []) (hs1 : ∀ c ∈ h1, safeChar c) (hs2 : ∀ c ∈ h2, safeChar c)
    (hs5 : ∀ c ∈ h5, safeChar c) (hs6 : ∀ c ∈ h6, safeChar c) :
    runPass (coreAtx 1) (docC6mid2 h1 h2 h5 h6) = docC6shifted h1 h2 h5 h6 := by
  have Hc : ∀ u pr, coreAtx 1 u = some pr → pr.2.length < u.length :=
    fun u pr h => coreAtx_rest_lt h
  have Hnl : ∀ u, coreAtx 1 ('\n' :: u) = none :=
    fun u => coreAtx_head_ne (by norm_num) (by decide) u
  show runPass (coreAtx 1)
      ('\n' :: (('#' :: ' ' :: h1) ++ rendIn
        [("Lorem ipsum".data, "Lorem ipsum".data),
         ('#' :: '#' :: '#' :: ' ' :: h2, '#' :: '#' :: '#' :: ' ' :: h2),
         ("Lorem ipsum".data, "Lorem ipsum".data),
         ("Dolor sit".data, "Dolor sit".data),
         ('#' :: '#' :: '#' :: '#' :: '#' :: '#' :: ' ' :: h5,
          '#' :: '#' :: '#' :: '#' :: '#' :: '#' :: ' ' :: h5),
         ('#' :: '#' :: '#' :: '#' :: '#' :: '#' :: ' ' :: h6,
          '#' :: '#' :: '#' :: '#' :: '#' :: '#' :: ' ' :: h6)]))
      = '\n' :: (('#' :: '#' :: ' ' :: h1) ++ rendOut
        [("Lorem ipsum".data, "Lorem ipsum".data),
         ('#' :: '#' :: '#' :: ' ' :: h2, '#' :: '#' :: '#' :: ' ' :: h2),
         ("Lorem ipsum".data, "Lorem ipsum".data),
         ("Dolor sit".data, "Dolor sit".data),
         ('#' :: '#' :: '#' :: '#' :: '#' :: '#' :: ' ' :: h5,
          '#' :: '#' :: '#' :: '#' :: '#' :: '#' :: ' ' :: h5),
         ('#' :: '#' :: '#' :: '#' :: '#' :: '#' :: ' ' :: h6,
          '#' :: '#' :: '#' :: '#' :: '#' :: '#' :: ' ' :: h6)])
  refine runPass_segs Hc Hnl (Or.inr ?_) ?_
  · rw [rendIn_eq]
    exact coreAtx_hit (n := 1) hne1 hs1
  · refine SegsOk.skip ?_ ?_ (SegsOk.skip ?_ ?_ (SegsOk.skip ?_ ?_
      (SegsOk.skip ?_ ?_ (SegsOk.skip ?_ ?_ (SegsOk.skip ?_ ?_ SegsOk.nil)))))
    · exact coreAtx_head_ne (by norm_num) (by decide) _
    · exact (by decide : noNL "Lorem ipsum".data)
    · exact coreAtx_hashes_space_fail (n := 1) (k := 3) (by decide)
    · exact noNL_header hs2 (k := 3)
    · exact coreAtx_head_ne (by norm_num) (by decide) _
    · exact (by decide : noNL "Lorem ipsum".data)
    · exact coreAtx_head_ne (by norm_num) (by decide) _
    · exact (by decide : noNL "Dolor sit".data)
    · exact coreAtx_hashes_space_fail (n := 1) (k := 6) (by decide)
    · exact noNL_header hs5 (k := 6)
    · exact coreAtx_hashes_space_fail (n := 1) (k := 6) (by decide)
    · exact noNL_header hs6 (k := 6)



theorem se2_docC6shifted (h1 h2 h5 h6 : List Char)
    (hs1 : ∀ c ∈ h1, safeChar c) (hs2 : ∀ c ∈ h2, safeChar c)
    (hs5 : ∀ c ∈ h5, safeChar c) (hs6 : ∀ c ∈ h6, safeChar c) :
    runPass coreSe2 (docC6shifted h1 h2 h5 h6) = docC6shifted h1 h2 h5 h6 := by
  have m1 : '-' ∉ h1 := fun hm => (safeChar_ne (hs1 _ hm)).2.2.2.2 rfl
  have m2 : '-' ∉ h2 := fun hm => (safeChar_ne (hs2 _ hm)).2.2.2.2 rfl
  have m5 : '-' ∉ h5 := fun hm => (safeChar_ne (hs5 _ hm)).2.2.2.2 rfl
  have m6 : '-' ∉ h6 := fun hm => (safeChar_ne (hs6 _ hm)).2.2.2.2 rfl
  refine runPass_id_of_not_mem '-' (fun u pr h => coreSe2_some_mem h) ?_
  simp [docC6shifted, List.mem_cons, List.mem_append, not_or, m1, m2, m5, m6]

theorem se1_docC6shifted (h1 h2 h5 h6 : List Char)
    (hs1 : ∀ c ∈ h1, safeChar c) (hs2 : ∀ c ∈ h2, safeChar c)
    (hs5 : ∀ c ∈ h5, safeChar c) (hs6 : ∀ c ∈ h6, safeChar c) :
    runPass coreSe1 (docC6shifted h1 h2 h5 h6) = docC6shifted h1 h2 h5 h6 := by
  have m1 : '=' ∉ h1 := fun hm => (safeChar_ne (hs1 _ hm)).2.2.2.1 rfl
  have m2 : '=' ∉ h2 := fun hm => (safeChar_ne (hs2 _ hm)).2.2.2.1 rfl
  have m5 : '=' ∉ h5 := fun hm => (safeChar_ne (hs5 _ hm)).2.2.2.1 rfl
  have m6 : '=' ∉ h6 := fun hm => (safeChar_ne (hs6 _ hm)).2.2.2.1 rfl
  refine runPass_id_of_not_mem '=' (fun u pr h => coreSe1_some_mem h) ?_
  simp [docC6shifted, List.mem_cons, List.mem_append, not_or, m1, m2, m5, m6]

theorem matchImage_rest_lt {s alt url rest : List Char}
    (h : matchImage s = some (alt, url, rest)) : rest.length < s.length := by
  unfold matchImage at h
  cases s with
  | nil => exact absurd h (by simp)
  | cons bang s1 =>
    cases s1 with
    | nil => exact absurd h (by simp)
    | cons bracket s =>
      dsimp only at h
      split at h
      · split at h
        · exact absurd h (by simp)
        · cases hdw : s.dropWhile (· != ']') with
          | nil => rw [hdw] at h; exact absurd h (by simp)
          | cons cl u =>
            have hle : (cl :: u).length ≤ s.length := by
              rw [← hdw]; exact (List.dropWhile_sublist _).length_le
            simp only [List.length_cons] at hle
            cases u with
            | nil => rw [hdw] at h; exact absurd h (by simp)
            | cons par t =>
              rw [hdw] at h
              dsimp only at h
              split at h
              · split at h
                · exact absurd h (by simp)
                · cases hdw2 : t.dropWhile (· != ')') with
                  | nil => rw [hdw2] at h; exact absurd h (by simp)
                  | cons clp rest2 =>
                    have hle2 : (clp :: rest2).length ≤ t.length := by
                      rw [← hdw2]; exact (List.dropWhile_sublist _).length_le
                    simp only [List.length_cons] at hle2
                    rw [hdw2] at h
                    dsimp only at h
                    split at h
                    · cases h
                      simp only [List.length_cons] at hle ⊢
                      omega
                    · exact absurd h (by simp)
              · exact absurd h (by simp)
      · exact absurd h (by simp)

theorem imgScan_fuel (fx : String → Except Unit (Bool × List Nat))
    (slg : String → String) :
    ∀ f n (s : List Char) (st : ConvState), s.length ≤ f →
      imgScan fx slg f n s st = imgScan fx slg s.length n s st := by
  intro f
  induction f using Nat.strong_induction_on with
  | _ f ih =>
    intro n s st hs
    cases f with
    | zero =>
      have hnil : s = [] := by
        cases s with
        | nil => rfl
        | cons c t => simp at hs
      subst hnil; rfl
    | succ f =>
      cases s with
      | nil =>
        cases n with
        | zero => rfl
        | succ n => rfl
      | cons c t =>
        have hts : t.length ≤ f := by simpa using hs
        have hft : f < f + 1 := Nat.lt_succ_self f
        have htf : t.length < f + 1 := Nat.lt_succ_of_le hts
        have hstep : (c :: t).length = t.length + 1 := by simp
        rw [hstep]
        cases n with
        | zero => rfl
        | succ n =>
          cases hm : matchImage (c :: t) with
          | some pr =>
            obtain ⟨alt, url, rest⟩ := pr
            have hlt : rest.length ≤ t.length := by
              have := matchImage_rest_lt hm
              simp only [List.length_cons] at this
              omega
            have e1 : ∀ st', imgScan fx slg f n rest st'
                = imgScan fx slg rest.length n rest st' :=
              fun st' => ih f hft n rest st' (le_trans hlt hts)
            have e2 : ∀ st', imgScan fx slg t.length n rest st'
                = imgScan fx slg rest.length n rest st' :=
              fun st' => ih t.length htf n rest st' hlt
            simp only [imgScan, hm, e1, e2]
          | none =>
            simp only [imgScan, hm]
            rw [ih f hft (n + 1) t st hts,
              ih t.length htf (n + 1) t st (Nat.le_refl _)]

/-- One match step of the image scan at canonical fuel. -/
theorem imgScan_match (fx : String → Except Unit (Bool × List Nat))
    (slg : String → String) {s alt url rest : List Char} {n : Nat}
    {st : ConvState} (h : matchImage s = some (alt, url, rest)) :
    imgScan fx slg s.length (n + 1) s st =
      match repl_and_download_image fx slg alt url st with
      | .error e => .error e
      | .ok (txt, st') =>
        match imgScan fx slg rest.length n rest st' with
        | .error e => .error e
        | .ok (out, st'') => .ok (txt ++ out, st'') := by
  cases s with
  | nil => exact absurd h (by simp [matchImage])
  | cons c t =>
    have hlt : rest.length ≤ t.length := by
      have := matchImage_rest_lt h
      simp only [List.length_cons] at this
      omega
    have e : ∀ st', imgScan fx slg t.length n rest st'
        = imgScan fx slg rest.length n rest st' :=
      fun st' => imgScan_fuel fx slg t.length n rest st' hlt
    simp only [List.length_cons, imgScan, h, e]

/-- One copy step of the image scan at canonical fuel. -/
theorem imgScan_copy (fx : String → Except Unit (Bool × List Nat))
    (slg : String → String) {c : Char} {t : List Char} {n : Nat}
    {st : ConvState} (h : matchImage (c :: t) = none) :
    imgScan fx slg (c :: t).length (n + 1) (c :: t) st =
      match imgScan fx slg t.length (n + 1) t st with
      | .error e => .error e
      | .ok (out, st'') => .ok (c :: out, st'') := by
  simp only [List.length_cons, imgScan, h]

/-! ## Claim theorems: header shifting, concrete claims -/

/-- C1, counterexample: two level-1 ATX headers on immediately adjacent
lines are NOT both shifted — the first match consumes the separating
newline, so the second header keeps its level.  The claim's "every
header line is rewritten exactly once" fails on this fragment. -/
theorem c1_adjacent_counterexample :
    shift_markdown_headers "# A\n# B" = "## A\n# B" ∧
      shift_markdown_headers "# A\n# B" ≠ "## A\n## B" := by decide

/-- C1 as amended: multiple headers in one fragment are all shifted when
separated by a blank line, and adjacent headers of different levels are
all shifted (the passes run separately); but when two headers handled by
the same substitution pass sit on immediately adjacent lines — same-level
ATX headers, or back-to-back Setext blocks — the earlier match consumes
the shared newline and the second header is left unshifted. -/
theorem c1_amended_adjacency :
    shift_markdown_headers "# A\n\n# B" = "## A\n\n## B" ∧
    shift_markdown_headers "# A\n## B" = "## A\n### B" ∧
    shift_markdown_headers "## A\n## B" = "### A\n## B" ∧
    shift_markdown_headers "A\n==\nB\n==" = "A\n--\nB\n==" := by decide

/-- C6: for every document of the spec's multi-header shape — ATX
headers of levels 1, 2, 5 and 6 with arbitrary nonempty plain titles,
interspersed with body text and blank lines — the shift rewrites the
headers to levels 2, 3, 6 and 6 respectively, keeps all body text and
blank-line spacing unchanged, and no header moves more than one level,
because the passes run in the fixed order 5→6, 4→5, 3→4, 2→3, 1→2. -/
theorem c6_full_document_shift (h1 h2 h5 h6 : List Char)
    (T1 : okTitle h1) (T2 : okTitle h2) (T5 : okTitle h5) (T6 : okTitle h6) :
    shiftChars (docC6 h1 h2 h5 h6) = docC6shifted h1 h2 h5 h6 := by
  obtain ⟨hne1, hs1⟩ := T1
  obtain ⟨hne2, hs2⟩ := T2
  obtain ⟨hne5, hs5⟩ := T5
  obtain ⟨hne6, hs6⟩ := T6
  unfold shiftChars
  rw [pass5_docC6 h1 h2 h5 h6 hs1 hs2 hne5 hs5 hs6,
    pass4_docC6mid1 h1 h2 h5 h6 hs1 hs2 hs5 hs6,
    pass3_docC6mid1 h1 h2 h5 h6 hs1 hs2 hs5 hs6,
    pass2_docC6mid1 h1 h2 h5 h6 hs1 hne2 hs2 hs5 hs6,
    pass1_docC6mid2 h1 h2 h5 h6 hne1 hs1 hs2 hs5 hs6,
    se2_docC6shifted h1 h2 h5 h6 hs1 hs2 hs5 hs6,
    se1_docC6shifted h1 h2 h5 h6 hs1 hs2 hs5 hs6]

/-- C6's witness at the source's own doctest document. -/
theorem c6_full_document_shift_witness :
    okTitle "Header 1".data ∧ okTitle "Header 2".data ∧
    okTitle "Header 5".data ∧ okTitle "Header 6".data ∧
    shift_markdown_headers
        "\n# Header 1\n\nLorem ipsum\n\n## Header 2\n\nLorem ipsum\n\nDolor sit\n\n##### Header 5\n\n###### Header 6\n"
      = "\n## Header 1\n\nLorem ipsum\n\n### Header 2\n\nLorem ipsum\n\nDolor sit\n\n###### Header 5\n\n###### Header 6\n" := by
  refine ⟨by decide, by decide, by decide, by decide, ?_⟩
  have h := c6_full_document_shift "Header 1".data "Header 2".data "Header 5".data "Header 6".data
    (by decide) (by decide) (by decide) (by decide)
  show String.mk (shiftChars
    "\n# Header 1\n\nLorem ipsum\n\n## Header 2\n\nLorem ipsum\n\nDolor sit\n\n##### Header 5\n\n###### Header 6\n".data) = _
  rw [show "\n# Header 1\n\nLorem ipsum\n\n## Header 2\n\nLorem ipsum\n\nDolor sit\n\n##### Header 5\n\n###### Header 6\n".data
      = docC6 "Header 1".data "Header 2".data "Header 5".data "Header 6".data from by decide, h]
  decide

/-- C7: for every Setext level-1 header — a nonempty text line of plain
characters followed by an underline of `k ≥ 2` equals signs — the shift
keeps the text line and replaces the underline by dashes of exactly the
same length `k`; and a line of exactly one `=` or one `-` is not an
underline, so such a block passes through unchanged. -/
theorem c7_setext1_underline_length :
    (∀ (t : List Char) (k : Nat), okTitle t → 2 ≤ k →
      shiftChars (t ++ '\n' :: (List.replicate k '=' ++ ['\n']))
        = t ++ '\n' :: (List.replicate k '-' ++ ['\n'])) ∧
    shift_markdown_headers "Header 1\n=\n" = "Header 1\n=\n" ∧
    shift_markdown_headers "Header 2\n-\n" = "Header 2\n-\n" := by
  refine ⟨?_, by decide, by decide⟩
  intro t k ht hk
  obtain ⟨hne, hsafe⟩ := ht
  have hmem : ∀ c ∈ t ++ '\n' :: (List.replicate k '=' ++ ['\n']),
      c = '\n' ∨ c = '=' ∨ safeChar c := by
    intro c hc
    rcases List.mem_append.mp hc with hc | hc
    · exact Or.inr (Or.inr (hsafe c hc))
    · rcases List.mem_cons.mp hc with rfl | hc
      · exact Or.inl rfl
      · rcases List.mem_append.mp hc with hc | hc
        · exact Or.inr (Or.inl (List.eq_of_mem_replicate hc))
        · rcases List.mem_cons.mp hc with rfl | hc
          · exact Or.inl rfl
          · simp at hc
  have hnoHash : '#' ∉ t ++ '\n' :: (List.replicate k '=' ++ ['\n']) := by
    intro hm
    rcases hmem _ hm with h | h | h
    · exact absurd h (by decide)
    · exact absurd h (by decide)
    · exact absurd h (by decide)
  have hnoDash : '-' ∉ t ++ '\n' :: (List.replicate k '=' ++ ['\n']) := by
    intro hm
    rcases hmem _ hm with h | h | h
    · exact absurd h (by decide)
    · exact absurd h (by decide)
    · exact absurd h (by decide)
  have htw1 : (t ++ '\n' :: (List.replicate k '=' ++ ['\n'])).takeWhile (· != '\n') = t :=
    twStop (fun c hc => by simpa using (safeChar_ne (hsafe c hc)).1) (by simp)
  have hdw1 : (t ++ '\n' :: (List.replicate k '=' ++ ['\n'])).dropWhile (· != '\n')
      = '\n' :: (List.replicate k '=' ++ ['\n']) :=
    dwStop (fun c hc => by simpa using (safeChar_ne (hsafe c hc)).1) (by simp)
  have htw2 : (List.replicate k '=' ++ ['\n']).takeWhile (· == '=') = List.replicate k '=' :=
    twStop (fun c hc => by simp [List.eq_of_mem_replicate hc]) (by simp)
  have hdw2 : (List.replicate k '=' ++ ['\n']).dropWhile (· == '=') = ['\n'] :=
    dwStop (fun c hc => by simp [List.eq_of_mem_replicate hc]) (by simp)
  have hcore : coreSe1 (t ++ '\n' :: (List.replicate k '=' ++ ['\n'])) =
      some (t ++ '\n' :: (List.replicate k '-' ++ ['\n']), []) := by
    unfold coreSe1
    rw [htw1, hdw1]
    dsimp only
    rw [if_neg hne]
    rw [htw2, hdw2]
    simp [List.length_replicate, Nat.not_lt.mpr hk]
  unfold shiftChars
  rw [runPass_id_of_not_mem '#'
        (fun u pr h => coreAtx_some_mem (by norm_num) h) hnoHash,
      runPass_id_of_not_mem '#'
        (fun u pr h => coreAtx_some_mem (by norm_num) h) hnoHash,
      runPass_id_of_not_mem '#'
        (fun u pr h => coreAtx_some_mem (by norm_num) h) hnoHash,
      runPass_id_of_not_mem '#'
        (fun u pr h => coreAtx_some_mem (by norm_num) h) hnoHash,
      runPass_id_of_not_mem '#'
        (fun u pr h => coreAtx_some_mem (by norm_num) h) hnoHash,
      runPass_id_of_not_mem '-'
        (fun u pr h => coreSe2_some_mem h) hnoDash,
      runPass_core_some (fun u pr h => coreSe1_rest_lt h) hcore]
  simp [scanF_nil]

/-- C7's witness at the spec's own example: the title "Header 1" with an
eight-character underline, and the hypotheses checked by evaluation. -/
theorem c7_setext1_underline_length_witness :
    okTitle "Header 1".data ∧ 2 ≤ 8 ∧
      shift_markdown_headers "Header 1\n========\n" = "Header 1\n--------\n" := by
  refine ⟨by decide, by decide, ?_⟩
  have h := c7_setext1_underline_length.1 "Header 1".data 8 (by decide) (by decide)
  show String.mk (shiftChars "Header 1\n========\n".data) = _
  have hdata : "Header 1\n========\n".data
      = "Header 1".data ++ '\n' :: (List.replicate 8 '=' ++ ['\n']) := by decide
  rw [hdata, h]
  decide

/-- C9: `shift_markdown_headers` is not idempotent — a second
application demotes the headers further ("# Head" becomes "## Head" and
then "### Head"). -/
theorem c9_shift_not_idempotent :
    shift_markdown_headers (shift_markdown_headers "# Head") ≠
      shift_markdown_headers "# Head" := by decide

/-! ## Claim theorems: image localiser, concrete claims -/

/-- C2, the code at the failing input: a reference whose URL starts with
neither `http://`, `https://` nor `/` makes `repl_and_download_image`
call the nonexistent `click.echos`, raising `AttributeError` — for every
fetch function, slugifier and incoming state the whole call aborts with
the exception instead of warning, skipping the fetch and leaving the
reference in place. -/
theorem c2_unresolvable_url_raises
    (fetch : String → Except Unit (Bool × List Nat))
    (slugBase : String → String) (st : ConvState) :
    download_and_replace_markdown_images fetch slugBase
        "![pic](images/foo.png)" st =
      .error PyError.attributeError := rfl

/-- C4, the code at the failing input: nine byte-identical references in
one fragment.  The source passes `re.MULTILINE` (value 8) as the count
argument of `Pattern.sub`, so only the first eight references are
rewritten — the dedup registry maps them all to the single written file
`a.png` — and the ninth reference is left in source form, so the pair
(first, ninth) is not rewritten to one shared local filename. -/
theorem c4_count_limit_nine_refs :
    download_and_replace_markdown_images (fun _ => .ok (true, [7]))
        (fun s => s)
        "![a](https://e/i.png)![a](https://e/i.png)![a](https://e/i.png)![a](https://e/i.png)![a](https://e/i.png)![a](https://e/i.png)![a](https://e/i.png)![a](https://e/i.png)![a](https://e/i.png)"
        initState =
      .ok ("![a](a.png)![a](a.png)![a](a.png)![a](a.png)![a](a.png)![a](a.png)![a](a.png)![a](a.png)![a](https://e/i.png)",
        ⟨[([7], "a.png")], [("a.png", [7])], 0, ["a"]⟩) := rfl

/-- C5, counterexample: a network error from `requests.get` is not
caught — the scan aborts with the exception before reaching the second
reference, instead of warning and continuing. -/
theorem c5_network_error_counterexample :
    download_and_replace_markdown_images (fun _ => .error ()) (fun s => s)
        "![a](https://e/x.png) ![b](https://e/y.png)" initState =
      .error PyError.requestsException := rfl

/-- C5 as amended: only a fetch that returns a non-success HTTP status
is a soft failure — the reference text is kept byte-identical, no file
is written and the registry is untouched for it, one warning is counted,
and the scan continues to the following references (here the second
reference is downloaded and rewritten); a network error instead raises
and aborts the run. -/
theorem c5_amended_bad_status_soft (b : List Nat) :
    download_and_replace_markdown_images
        (fun u => if u = "https://e/bad.png" then .ok (false, [9])
                  else .ok (true, b))
        (fun s => s)
        "![a](https://e/bad.png) ![b](https://e/1.png)" initState =
      .ok ("![a](https://e/bad.png) ![b](b.png)",
        ⟨[(b, "b.png")], [("b.png", b)], 1, ["b"]⟩) := rfl

/-- C3, counterexample: two byte-distinct images whose alt texts carry
the same slug, placed in two different fragments of one run.  The
`UniqueSlugify` object is created afresh inside each call of
`download_and_replace_markdown_images`, so the second fragment's image
is assigned the very same filename `pic.png` — the run-wide pairwise
distinctness the claim states fails, and the second write overwrites
the first file. -/
theorem c3_cross_fragment_counterexample :
    download_and_replace_markdown_images
        (fun u => if u = "https://e/1.png" then .ok (true, [1])
                  else .ok (true, [2]))
        (fun s => s) "![pic](https://e/1.png)" initState =
      .ok ("![pic](pic.png)",
        ⟨[([1], "pic.png")], [("pic.png", [1])], 0, ["pic"]⟩) ∧
    download_and_replace_markdown_images
        (fun u => if u = "https://e/1.png" then .ok (true, [1])
                  else .ok (true, [2]))
        (fun s => s) "![pic](https://e/2.png)"
        ⟨[([1], "pic.png")], [("pic.png", [1])], 0, ["pic"]⟩ =
      .ok ("![pic](pic.png)",
        ⟨[([2], "pic.png"), ([1], "pic.png")],
         [("pic.png", [1]), ("pic.png", [2])], 0, ["pic"]⟩) ∧
    ([1] : List Nat) ≠ [2] := ⟨rfl, rfl, by decide⟩

/-- C3 as amended: within a single fragment — one call of
`download_and_replace_markdown_images`, whose fresh `UniqueSlugify`
carries the uniqueness state — two byte-distinct images whose alt texts
slugify to the same base receive distinct filenames, the second
disambiguated with the deterministic suffix `-1`; the uniqueness state
does not survive into the next fragment (the counterexample). -/
theorem c3_amended_per_fragment_unique (b1 b2 : List Nat) (hne : b1 ≠ b2) :
    download_and_replace_markdown_images
        (fun u => if u = "https://e/1.png" then .ok (true, b1) else .ok (true, b2))
        (fun s => s)
        "![pic](https://e/1.png) ![pic](https://e/2.png)" initState =
      .ok ("![pic](pic.png) ![pic](pic-1.png)",
        ⟨[(b2, "pic-1.png"), (b1, "pic.png")],
         [("pic.png", b1), ("pic-1.png", b2)], 0, ["pic-1", "pic"]⟩) := by
  have hlk : lookupBytes b2 [(b1, "pic.png")] = none := by
    simp [lookupBytes, Ne.symm hne]
  have r2 : repl_and_download_image
      (fun u => if u = "https://e/1.png" then .ok (true, b1) else .ok (true, b2))
      (fun s => s) ['p', 'i', 'c']
      ['h', 't', 't', 'p', 's', ':', '/', '/', 'e', '/', '2', '.', 'p', 'n', 'g']
      ⟨[(b1, "pic.png")], [("pic.png", b1)], 0, ["pic"]⟩ =
      .ok ("![pic](pic-1.png)".data,
        ⟨[(b2, "pic-1.png"), (b1, "pic.png")],
         [("pic.png", b1), ("pic-1.png", b2)], 0, ["pic-1", "pic"]⟩) := by
    have hred : repl_and_download_image
        (fun u => if u = "https://e/1.png" then .ok (true, b1) else .ok (true, b2))
        (fun s => s) ['p', 'i', 'c']
        ['h', 't', 't', 'p', 's', ':', '/', '/', 'e', '/', '2', '.', 'p', 'n', 'g']
        ⟨[(b1, "pic.png")], [("pic.png", b1)], 0, ["pic"]⟩ =
        match lookupBytes b2 [(b1, "pic.png")] with
        | some fn => .ok (mkRef ['p', 'i', 'c'] fn.data,
            ⟨[(b1, "pic.png")], [("pic.png", b1)], 0, ["pic"]⟩)
        | none => .ok ("![pic](pic-1.png)".data,
            ⟨[(b2, "pic-1.png"), (b1, "pic.png")],
             [("pic.png", b1), ("pic-1.png", b2)], 0, ["pic-1", "pic"]⟩) := rfl
    rw [hred, hlk]
  have r1 : repl_and_download_image
      (fun u => if u = "https://e/1.png" then .ok (true, b1) else .ok (true, b2))
      (fun s => s) "pic".data "https://e/1.png".data
      { initState with used_slugs := [] } =
      .ok ("![pic](pic.png)".data,
        ⟨[(b1, "pic.png")], [("pic.png", b1)], 0, ["pic"]⟩) := rfl
  unfold download_and_replace_markdown_images
  rw [show (8 : Nat) = 7 + 1 from rfl]
  rw [imgScan_match _ _
    (show matchImage "![pic](https://e/1.png) ![pic](https://e/2.png)".data
      = some ("pic".data, "https://e/1.png".data,
          " ![pic](https://e/2.png)".data) from rfl)]
  rw [r1]
  dsimp only
  rw [show (7 : Nat) = 6 + 1 from rfl]
  rw [imgScan_copy _ _
    (show matchImage (' ' :: ['!', '[', 'p', 'i', 'c', ']', '(', 'h', 't', 't',
        'p', 's', ':', '/', '/', 'e', '/', '2', '.', 'p', 'n', 'g', ')'])
      = none from rfl)]
  rw [imgScan_match _ _
    (show matchImage ['!', '[', 'p', 'i', 'c', ']', '(', 'h', 't', 't', 'p',
        's', ':', '/', '/', 'e', '/', '2', '.', 'p', 'n', 'g', ')']
      = some (['p', 'i', 'c'],
          ['h', 't', 't', 'p', 's', ':', '/', '/', 'e', '/', '2', '.', 'p', 'n', 'g'],
          ([] : List Char)) from rfl)]
  rw [r2]
  rfl

/-- C3's amended-claim witness at concrete distinct byte contents. -/
theorem c3_amended_per_fragment_unique_witness :
    ([1] : List Nat) ≠ [2] ∧
      download_and_replace_markdown_images
        (fun u => if u = "https://e/1.png" then .ok (true, [1]) else .ok (true, [2]))
        (fun s => s)
        "![pic](https://e/1.png) ![pic](https://e/2.png)" initState =
      .ok ("![pic](pic.png) ![pic](pic-1.png)",
        ⟨[([2], "pic-1.png"), ([1], "pic.png")],
         [("pic.png", [1]), ("pic-1.png", [2])], 0, ["pic-1", "pic"]⟩) :=
  ⟨by decide, c3_amended_per_fragment_unique [1] [2] (by decide)⟩

/-- C10: the image pattern requires at least one character in both the
alt and the URL group, so a reference with empty alt text or empty URL
is never matched: every match the scanner produces has nonempty groups,
and on fragments holding only such degenerate references the localiser
fetches nothing, writes nothing, changes no registry entry and returns
the text byte-identical, whatever the fetch function, the slugifier and
the incoming state. -/
theorem c10_empty_alt_or_url_unmatched :
    (∀ (s alt url rest : List Char),
      matchImage s = some (alt, url, rest) → alt ≠ [] ∧ url ≠ []) ∧
    (∀ (fetch : String → Except Unit (Bool × List Nat))
        (slugBase : String → String) (st : ConvState),
      download_and_replace_markdown_images fetch slugBase
          "xx ![](https://e/a.png) yy" st =
        .ok ("xx ![](https://e/a.png) yy", { st with used_slugs := [] })) ∧
    (∀ (fetch : String → Except Unit (Bool × List Nat))
        (slugBase : String → String) (st : ConvState),
      download_and_replace_markdown_images fetch slugBase
          "xx ![alt]() yy" st =
        .ok ("xx ![alt]() yy", { st with used_slugs := [] })) := by
  refine ⟨?_, fun fetch slugBase st => rfl, fun fetch slugBase st => rfl⟩
  intro s alt url rest h
  unfold matchImage at h
  cases s with
  | nil => exact absurd h (by simp)
  | cons bang s1 =>
    cases s1 with
    | nil => exact absurd h (by simp)
    | cons bracket s =>
      dsimp only at h
      split at h
      · by_cases ha : s.takeWhile (· != ']') = []
        · rw [if_pos ha] at h; exact absurd h (by simp)
        · rw [if_neg ha] at h
          cases hdw : s.dropWhile (· != ']') with
          | nil => rw [hdw] at h; exact absurd h (by simp)
          | cons cl u =>
            cases u with
            | nil => rw [hdw] at h; exact absurd h (by simp)
            | cons par t =>
              rw [hdw] at h
              dsimp only at h
              split at h
              · by_cases hu : t.takeWhile (· != ')') = []
                · rw [if_pos hu] at h; exact absurd h (by simp)
                · rw [if_neg hu] at h
                  cases hdw2 : t.dropWhile (· != ')') with
                  | nil => rw [hdw2] at h; exact absurd h (by simp)
                  | cons clp rest2 =>
                    rw [hdw2] at h
                    dsimp only at h
                    split at h
                    · cases h
                      exact ⟨ha, hu⟩
                    · exact absurd h (by simp)
              · exact absurd h (by simp)
      · exact absurd h (by simp)

/-- C10's witness: a concrete match of the pattern, whose groups the
theorem then shows nonempty. -/
theorem c10_empty_alt_or_url_unmatched_witness :
    (['a'] : List Char) ≠ [] ∧ (['u'] : List Char) ≠ [] :=
  c10_empty_alt_or_url_unmatched.1 "![a](u)".data ['a'] ['u'] [] (by decide)

/-- C8, counterexample: the extension is `"." + image_url.split(".")[-1]`
— the suffix after the last dot of the WHOLE url — not the extension of
the url's last path segment.  For a url whose last segment has no dot
the assigned filename even contains slashes, and differs from the
filename the claim's rule would build. -/
theorem c8_extension_counterexample :
    download_and_replace_markdown_images (fun _ => .ok (true, [5]))
        (fun s => s) "![photo](https://zestedesavoir.com/media/img)"
        initState =
      .ok ("![photo](photo.com/media/img)",
        ⟨[([5], "photo.com/media/img")],
         [("photo.com/media/img", [5])], 0, ["photo"]⟩) ∧
    "photo" ++ String.mk (extOfLastSegment
        "https://zestedesavoir.com/media/img".data) = "photo.img" ∧
    "photo.com/media/img" ≠ "photo.img" := ⟨rfl, by decide, by decide⟩

/-- C8 as amended: a newly downloaded image's filename is the slug of
the alt text followed by a dot and the suffix after the final dot of the
entire resolved URL (`image_ext_of`); when the URL's last path segment
contains a dot this coincides with the claim's last-segment rule, but
for a dotless last segment the suffix is drawn from earlier in the URL
and may contain slashes. -/
theorem c8_amended_extension_rule (b : List Nat) :
    download_and_replace_markdown_images (fun _ => .ok (true, b))
        (fun s => s) "![photo](https://zestedesavoir.com/media/img)"
        initState =
      .ok ("![photo](photo.com/media/img)",
        ⟨[(b, "photo.com/media/img")],
         [("photo.com/media/img", b)], 0, ["photo"]⟩) ∧
    "photo.com/media/img" =
      "photo" ++ String.mk (image_ext_of
        "https://zestedesavoir.com/media/img".data) ∧
    download_and_replace_markdown_images (fun _ => .ok (true, b))
        (fun s => s) "![pic](https://e.com/pics/a.png)" initState =
      .ok ("![pic](pic.png)",
        ⟨[(b, "pic.png")], [("pic.png", b)], 0, ["pic"]⟩) ∧
    "pic.png" = "pic" ++ String.mk (image_ext_of
        "https://e.com/pics/a.png".data) ∧
    "pic.png" = "pic" ++ String.mk (extOfLastSegment
        "https://e.com/pics/a.png".data) :=
  ⟨rfl, by decide, rfl, by decide, by decide⟩
